import Mathlib

/-!
# Parquet schema levels and the schema descriptor

A shallow embedding of `be/src/formats/parquet/schema.h`
(namespace `starrocks::parquet`).

Conventions of the embedding.

* An `int16_t` is an `Int` lying in `[-32768, 32767]`; a store into an
  `int16_t` object goes through `to_int16`, the reduction modulo `2^16`
  (the operand of `++` is promoted to `int`, incremented there without
  overflow, and converted back on the store).
* A non-`const` member function is a function from the object to the pair
  of its return value and the object after the call; a `const` member
  function is a function of the object alone.
* A `const ParquetField*` is modelled by the field it points to; an
  element access outside the container is `none`.
* The types declared in headers outside this file
  (`tparquet::SchemaElement`, `TypeDescriptor`, `tparquet::Type::type`)
  are type parameters.
-/

namespace Parquet

/-! ## Machine integers -/

/-- Conversion of an integer to `int16_t`: the unique value in
`[-32768, 32767]` congruent to the argument modulo `2^16`. -/
def to_int16 (x : Int) : Int := (x + 32768) % 65536 - 32768

/-- The values an `int16_t` object can hold. -/
def is_int16 (x : Int) : Prop := -32768 ≤ x ∧ x ≤ 32767

instance (x : Int) : Decidable (is_int16 x) := by
  unfold is_int16; infer_instance

/-- The values an `int` object can hold (32 bits). -/
def is_int32 (x : Int) : Prop := -2147483648 ≤ x ∧ x ≤ 2147483647

instance (x : Int) : Decidable (is_int32 x) := by
  unfold is_int32; infer_instance

/-- Conversion of an `int` to `size_t` (64 bits), as performed when an
`int` is passed to `std::vector::operator[]`. -/
def size_t_of_int (i : Int) : Nat := (i % 18446744073709551616).toNat

/-! ## LevelInfo -/

/-- The record `struct LevelInfo`; the default member initialisers are the
field defaults. -/
structure LevelInfo where
  max_def_level : Int := 0
  max_rep_level : Int := 0
  immediate_repeated_ancestor_def_level : Int := 0
deriving DecidableEq, Repr

namespace LevelInfo

/-- Every field holds an `int16_t` value. -/
def well_typed (L : LevelInfo) : Prop :=
  is_int16 L.max_def_level ∧ is_int16 L.max_rep_level ∧
    is_int16 L.immediate_repeated_ancestor_def_level

instance (L : LevelInfo) : Decidable (well_typed L) := by
  unfold well_typed; infer_instance

/-- The member `bool is_nullable() const`. -/
def is_nullable (L : LevelInfo) : Bool :=
  decide (L.max_def_level > L.immediate_repeated_ancestor_def_level)

/-- The member `int16_t increment_repeated()`: the returned value paired with
the object after the call. -/
def increment_repeated (L : LevelInfo) : Int × LevelInfo :=
  let origin_ancestor_rep_levels := L.immediate_repeated_ancestor_def_level
  let L1 := { L with max_def_level := to_int16 (L.max_def_level + 1) }
  let L2 := { L1 with max_rep_level := to_int16 (L1.max_rep_level + 1) }
  let L3 := { L2 with immediate_repeated_ancestor_def_level := L2.max_def_level }
  (origin_ancestor_rep_levels, L3)

/-- The invariant the data model states for a `LevelInfo`:
`max_def_level ≥ max_rep_level ≥ 0` and
`immediate_repeated_ancestor_def_level ≤ max_def_level`. -/
def invariant (L : LevelInfo) : Prop :=
  L.max_def_level ≥ L.max_rep_level ∧ L.max_rep_level ≥ 0 ∧
    L.immediate_repeated_ancestor_def_level ≤ L.max_def_level

instance (L : LevelInfo) : Decidable (invariant L) := by
  unfold invariant; infer_instance

/-- Modelled from the spec: the update applied when the schema walk (in
`schema.cpp`, not part of this header) descends into an OPTIONAL node,
"`max_def_level += 1`; `max_rep_level` and
`immediate_repeated_ancestor_def_level` unchanged". The field is the
`int16_t` declared in the header, so the store goes through `to_int16`. -/
def descend_optional (L : LevelInfo) : LevelInfo :=
  { L with max_def_level := to_int16 (L.max_def_level + 1) }

/-- The call `increment_repeated()` made `n` times in a row on the same
object: the values returned by the calls, in order, paired with the object
after the last call. -/
def increment_repeated_times : Nat → LevelInfo → List Int × LevelInfo
  | 0, L => ([], L)
  | n + 1, L =>
    let r := increment_repeated L
    let rest := increment_repeated_times n r.2
    (r.1 :: rest.1, rest.2)

end LevelInfo

/-! ## ParquetField -/

/-- The record `struct ParquetField`. `SE`, `TD` and `PT` stand for
`tparquet::SchemaElement`, `TypeDescriptor` and `tparquet::Type::type`. -/
structure ParquetField (SE TD PT : Type) where
  name : String
  schema_element : SE
  type : TD
  is_nullable : Bool
  physical_type : PT
  type_length : Int
  scale : Int
  precision : Int
  physical_column_index : Int
  level_info : LevelInfo
  children : List (ParquetField SE TD PT)

namespace ParquetField

variable {SE TD PT : Type}

/-- The member `int16_t max_def_level() const`. -/
def max_def_level (f : ParquetField SE TD PT) : Int := f.level_info.max_def_level

/-- The member `int16_t max_rep_level() const`. -/
def max_rep_level (f : ParquetField SE TD PT) : Int := f.level_info.max_rep_level

end ParquetField

/-! ## SchemaDescriptor -/

/-- The private state of `class SchemaDescriptor`. `_physical_fields` is a
vector of pointers into the tree owned by `_fields`; each pointer is
modelled by the field it points to. `_field_idx_by_name` is the
`unordered_map`, as an association list. A default-constructed descriptor
has empty containers and `_case_sensitive = false`. -/
structure SchemaDescriptor (SE TD PT : Type) where
  _fields : List (ParquetField SE TD PT) := []
  _physical_fields : List (ParquetField SE TD PT) := []
  _field_idx_by_name : List (String × Int) := []
  _case_sensitive : Bool := false

namespace SchemaDescriptor

variable {SE TD PT : Type}

/-- The member `get_stored_column_by_idx(int idx) const`, whose body is
`return &_fields[idx];`. The result is the field pointed to, `none` when
the element access is outside `_fields`. -/
def get_stored_column_by_idx (d : SchemaDescriptor SE TD PT) (idx : Int) :
    Option (ParquetField SE TD PT) :=
  d._fields[size_t_of_int idx]?

/-- Number of entries of the leaf sequence `_physical_fields`. -/
def leaf_count (d : SchemaDescriptor SE TD PT) : Nat := d._physical_fields.length

end SchemaDescriptor

/-! ## Sample schema

The descriptor of the schema `root { s { a, b }, c }`: a struct column `s`
with two required leaves followed by a required leaf column `c`. -/

/-- A required leaf at the given physical column index, all levels zero. -/
def sample_leaf (name : String) (physical_column_index : Int) : ParquetField Unit Unit Unit :=
  { name := name, schema_element := (), type := (), is_nullable := false,
    physical_type := (), type_length := 0, scale := 0, precision := 0,
    physical_column_index := physical_column_index, level_info := {}, children := [] }

/-- The required struct column `s { a, b }`. -/
def sample_struct : ParquetField Unit Unit Unit :=
  { name := "s", schema_element := (), type := (), is_nullable := false,
    physical_type := (), type_length := 0, scale := 0, precision := 0,
    physical_column_index := 0, level_info := {},
    children := [sample_leaf "a" 0, sample_leaf "b" 1] }

/-- The descriptor of `root { s { a, b }, c }`: two top-level fields, three
leaves. -/
def sample_descriptor : SchemaDescriptor Unit Unit Unit :=
  { _fields := [sample_struct, sample_leaf "c" 2],
    _physical_fields := [sample_leaf "a" 0, sample_leaf "b" 1, sample_leaf "c" 2],
    _field_idx_by_name := [("s", 0), ("c", 1)],
    _case_sensitive := false }

/-! ## The flat schema array and its conversion

`schema.h` declares `from_thrift`, `get_column_index` and the private
conversion functions; their bodies are in `schema.cpp`, and the flat schema
node `tparquet::SchemaElement` is declared in a generated header. What
follows models them from the specification of the schema resolver. -/

/-- Modelled from the spec: the repetition kind of a flat schema node
(declared in the generated header `gen_cpp/parquet_types.h`). The kind ABSENT
of the synthetic root is `none` in `SchemaElement.repetition_type`. -/
inductive Repetition where
  | REQUIRED
  | OPTIONAL
  | REPEATED
deriving DecidableEq, Repr

/-- Modelled from the spec: the logical/converted-type tag of a flat schema
node (declared in the generated header). `OTHER` stands for the tags that do
not steer the conversion (STRING, DECIMAL, …). -/
inductive ConvertedType where
  | LIST
  | MAP
  | MAP_KEY_VALUE
  | OTHER
deriving DecidableEq, Repr

/-- Modelled from the spec: a flat schema node, `tparquet::SchemaElement`
(declared in the generated header). `num_children` is present iff the node
is a group; `PT` is the physical storage type. -/
structure SchemaElement (PT : Type) where
  name : String
  repetition_type : Option Repetition
  num_children : Option Nat
  converted_type : Option ConvertedType
  type : PT
  type_length : Int
  scale : Int
  precision : Int

/-- Modelled from the spec: the resolved logical type descriptor of a field,
`TypeDescriptor` (declared in `runtime/types.h`), reduced to its kind: a
scalar, or one of the composites STRUCT, ARRAY, MAP. -/
inductive TypeDescriptor where
  | SCALAR
  | STRUCT
  | ARRAY
  | MAP
deriving DecidableEq, Repr

/-- The schema nodes produced by the conversion. -/
abbrev Field (PT : Type) := ParquetField (SchemaElement PT) TypeDescriptor PT

/-- Modelled from the spec: the failures of the construction (§7). They are
surfaced by `from_thrift` as a failure `Status` (declared in
`common/status.h`). `Unfinished` is not a status of the program: it is what
the conversion functions below answer when their recursion budget is used
up, and `from_thrift` never answers it. -/
inductive SchemaError where
  | StructuralMismatch
  | UnsupportedShape
  | MissingRoot
  | DuplicateName
  | Unfinished
deriving DecidableEq, Repr

/-- Modelled from the spec: `Status` (declared in `common/status.h`), either
OK or a failure. -/
abbrev Status := Except SchemaError Unit

/-- What one conversion step hands back: the field built (the `field`
out-parameter), the next unconsumed position (the `next_pos` out-parameter)
and the leaf sequence `_physical_fields` after the step. -/
structure Parsed (PT : Type) where
  field : Field PT
  next_pos : Nat
  physical_fields : List (Field PT)

namespace SchemaDescriptor

variable {PT : Type}

/-- Modelled from the spec: `leaf_to_field` (declared in the header, body in
`schema.cpp`). "Builds a scalar field; physical storage type, byte length,
scale/precision copied verbatim; … physical-column index assigned as the next
unused integer": the number of leaves recorded so far. The leaf is appended
to the leaf sequence. -/
def leaf_to_field (t_schema : SchemaElement PT) (cur_level_info : LevelInfo)
    (is_nullable : Bool) (physical_fields : List (Field PT)) : Field PT × List (Field PT) :=
  let field : Field PT :=
    { name := t_schema.name, schema_element := t_schema, type := TypeDescriptor.SCALAR,
      is_nullable := is_nullable, physical_type := t_schema.type,
      type_length := t_schema.type_length, scale := t_schema.scale,
      precision := t_schema.precision,
      physical_column_index := (physical_fields.length : Int),
      level_info := cur_level_info, children := [] }
  (field, physical_fields ++ [field])

/-- Modelled from the spec: a composite field (STRUCT, ARRAY or MAP) for a
node, with the given children; "a node is nullable iff `max_def_level >
immediate_repeated_ancestor_def_level`". The leaf-only members are copied
from the node and the physical-column index, meaningful for leaves only,
is 0. -/
def composite_field (t_schema : SchemaElement PT) (type : TypeDescriptor)
    (cur_level_info : LevelInfo) (children : List (Field PT)) : Field PT :=
  { name := t_schema.name, schema_element := t_schema, type := type,
    is_nullable := cur_level_info.is_nullable, physical_type := t_schema.type,
    type_length := t_schema.type_length, scale := t_schema.scale,
    precision := t_schema.precision, physical_column_index := 0,
    level_info := cur_level_info, children := children }

/-- Modelled from the spec: the `LevelInfo` copy after a node's own OPTIONAL
rule, applied by the LIST, MAP and plain groups ("groups can be optional");
a node that is not OPTIONAL changes nothing here. -/
def own_optional (t_schema : SchemaElement PT) (cur_level_info : LevelInfo) : LevelInfo :=
  match t_schema.repetition_type with
  | some Repetition.OPTIONAL => cur_level_info.descend_optional
  | _ => cur_level_info

/-- Modelled from the spec: the loop over the declared children of a group,
"recurse into each of its declared children in order, each inheriting the
group's own LevelInfo"; "each recursive call returns the next unconsumed
position in the flat array so the caller can continue with siblings".
`descend` is `node_to_field`; the answer is the children built, the next
unconsumed position and the leaf sequence. -/
def children_to_fields
    (descend : Nat → LevelInfo → List (Field PT) → Except SchemaError (Parsed PT)) :
    Nat → Nat → LevelInfo → List (Field PT) →
      Except SchemaError (List (Field PT) × Nat × List (Field PT))
  | 0, pos, _, physical_fields => Except.ok ([], pos, physical_fields)
  | k + 1, pos, cur_level_info, physical_fields =>
    match descend pos cur_level_info physical_fields with
    | Except.error e => Except.error e
    | Except.ok first =>
      match children_to_fields descend k first.next_pos cur_level_info
          first.physical_fields with
      | Except.error e => Except.error e
      | Except.ok (others, next_pos, physical_fields) =>
        Except.ok (first.field :: others, next_pos, physical_fields)

/-- Modelled from the spec: `group_to_struct_field` (declared in the header,
body in `schema.cpp`), the plain group: a STRUCT of the `num_children`
children that follow the group at `pos`. -/
def group_to_struct_field
    (descend : Nat → LevelInfo → List (Field PT) → Except SchemaError (Parsed PT))
    (group_schema : SchemaElement PT) (num_children : Nat) (pos : Nat)
    (cur_level_info : LevelInfo) (physical_fields : List (Field PT)) :
    Except SchemaError (Parsed PT) :=
  match children_to_fields descend num_children (pos + 1) cur_level_info physical_fields with
  | Except.error e => Except.error e
  | Except.ok (children, next_pos, physical_fields) =>
    Except.ok
      { field := composite_field group_schema TypeDescriptor.STRUCT cur_level_info children,
        next_pos := next_pos, physical_fields := physical_fields }

/-- Modelled from the spec: `list_to_field` (declared in the header, body in
`schema.cpp`), the LIST-converted group at `pos`. It "expects exactly one
child", a REPEATED node, reached by the REPEATED rule. 3-level form: the
child is a group "named conventionally (list/bag)" with exactly one child,
the element. Legacy 2-level form: the repeated child is itself the element,
a struct when it is a group with at least one child, a scalar when it is a
leaf. Any other shape is UnsupportedShape. -/
def list_to_field
    (descend : Nat → LevelInfo → List (Field PT) → Except SchemaError (Parsed PT))
    (t_schemas : List (SchemaElement PT)) (group_schema : SchemaElement PT)
    (num_children : Nat) (pos : Nat) (cur_level_info : LevelInfo)
    (physical_fields : List (Field PT)) : Except SchemaError (Parsed PT) :=
  if num_children ≠ 1 then Except.error SchemaError.UnsupportedShape
  else
    let list_level := own_optional group_schema cur_level_info
    match t_schemas[pos + 1]? with
    | none => Except.error SchemaError.StructuralMismatch
    | some child_schema =>
      if child_schema.repetition_type ≠ some Repetition.REPEATED then
        Except.error SchemaError.UnsupportedShape
      else
        let element_level := (list_level.increment_repeated).2
        match child_schema.num_children with
        | none =>
          let leaf := leaf_to_field child_schema element_level element_level.is_nullable
            physical_fields
          Except.ok
            { field := composite_field group_schema TypeDescriptor.ARRAY list_level [leaf.1],
              next_pos := pos + 2, physical_fields := leaf.2 }
        | some child_count =>
          if child_count = 0 then Except.error SchemaError.UnsupportedShape
          else if child_count = 1 ∧ (child_schema.name = "list" ∨ child_schema.name = "bag") then
            match descend (pos + 2) element_level physical_fields with
            | Except.error e => Except.error e
            | Except.ok element =>
              Except.ok
                { field := composite_field group_schema TypeDescriptor.ARRAY list_level
                    [element.field],
                  next_pos := element.next_pos, physical_fields := element.physical_fields }
          else
            match group_to_struct_field descend child_schema child_count (pos + 1)
                element_level physical_fields with
            | Except.error e => Except.error e
            | Except.ok element =>
              Except.ok
                { field := composite_field group_schema TypeDescriptor.ARRAY list_level
                    [element.field],
                  next_pos := element.next_pos, physical_fields := element.physical_fields }

/-- Modelled from the spec: `map_to_field` (declared in the header, body in
`schema.cpp`), the MAP-converted group at `pos`. It "expects exactly one
child, a REPEATED group …, which must have exactly two children: key … and
value"; a key declared OPTIONAL or REPEATED is UnsupportedShape. "Descending
to key_value applies the REPEATED rule once; key and value both inherit that
LevelInfo." -/
def map_to_field
    (descend : Nat → LevelInfo → List (Field PT) → Except SchemaError (Parsed PT))
    (t_schemas : List (SchemaElement PT)) (group_schema : SchemaElement PT)
    (num_children : Nat) (pos : Nat) (cur_level_info : LevelInfo)
    (physical_fields : List (Field PT)) : Except SchemaError (Parsed PT) :=
  if num_children ≠ 1 then Except.error SchemaError.UnsupportedShape
  else
    let map_level := own_optional group_schema cur_level_info
    match t_schemas[pos + 1]? with
    | none => Except.error SchemaError.StructuralMismatch
    | some kv_schema =>
      if kv_schema.repetition_type ≠ some Repetition.REPEATED ∨
          kv_schema.num_children ≠ some 2 then
        Except.error SchemaError.UnsupportedShape
      else
        let kv_level := (map_level.increment_repeated).2
        match t_schemas[pos + 2]? with
        | none => Except.error SchemaError.StructuralMismatch
        | some key_schema =>
          if key_schema.repetition_type = some Repetition.OPTIONAL ∨
              key_schema.repetition_type = some Repetition.REPEATED then
            Except.error SchemaError.UnsupportedShape
          else
            match children_to_fields descend 2 (pos + 2) kv_level physical_fields with
            | Except.error e => Except.error e
            | Except.ok (key_value, next_pos, physical_fields) =>
              Except.ok
                { field := composite_field group_schema TypeDescriptor.MAP map_level key_value,
                  next_pos := next_pos, physical_fields := physical_fields }

/-- Modelled from the spec: `group_to_field` (declared in the header, body in
`schema.cpp`), the dispatch over the group at `pos`: LIST-converted,
MAP-converted, or plain. A plain REPEATED group is the legacy array whose
element is the group's own content (a struct), reached by the REPEATED rule;
a plain OPTIONAL group applies its OPTIONAL rule. -/
def group_to_field
    (descend : Nat → LevelInfo → List (Field PT) → Except SchemaError (Parsed PT))
    (t_schemas : List (SchemaElement PT)) (group_schema : SchemaElement PT)
    (num_children : Nat) (pos : Nat) (cur_level_info : LevelInfo)
    (physical_fields : List (Field PT)) : Except SchemaError (Parsed PT) :=
  match group_schema.converted_type with
  | some ConvertedType.LIST =>
    list_to_field descend t_schemas group_schema num_children pos cur_level_info physical_fields
  | some ConvertedType.MAP =>
    map_to_field descend t_schemas group_schema num_children pos cur_level_info physical_fields
  | _ =>
    match group_schema.repetition_type with
    | some Repetition.REPEATED =>
      let element_level := (cur_level_info.increment_repeated).2
      match group_to_struct_field descend group_schema num_children pos element_level
          physical_fields with
      | Except.error e => Except.error e
      | Except.ok element =>
        Except.ok
          { field := composite_field group_schema TypeDescriptor.ARRAY element_level
              [element.field],
            next_pos := element.next_pos, physical_fields := element.physical_fields }
    | _ =>
      group_to_struct_field descend group_schema num_children pos
        (own_optional group_schema cur_level_info) physical_fields

/-- Modelled from the spec: `node_to_field` (declared in the header, body in
`schema.cpp`), "the dispatcher invoked once per flat-array position". A
position outside the array is StructuralMismatch. A leaf ("no children count
present") becomes a scalar field and "advances position by 1": after its
OPTIONAL rule when OPTIONAL; as the element of a legacy array, after the
REPEATED rule, when it is a bare REPEATED leaf. A group goes to
`group_to_field`. The first argument is the recursion budget: every nested
call is at a later position, so the length of the array is always enough. -/
def node_to_field (t_schemas : List (SchemaElement PT)) :
    Nat → Nat → LevelInfo → List (Field PT) → Except SchemaError (Parsed PT)
  | 0, _, _, _ => Except.error SchemaError.Unfinished
  | budget + 1, pos, cur_level_info, physical_fields =>
    match t_schemas[pos]? with
    | none => Except.error SchemaError.StructuralMismatch
    | some node_schema =>
      match node_schema.num_children with
      | some num_children =>
        group_to_field (node_to_field t_schemas budget) t_schemas node_schema num_children pos
          cur_level_info physical_fields
      | none =>
        match node_schema.repetition_type with
        | some Repetition.REPEATED =>
          let element_level := (cur_level_info.increment_repeated).2
          let leaf := leaf_to_field node_schema element_level element_level.is_nullable
            physical_fields
          Except.ok
            { field := composite_field node_schema TypeDescriptor.ARRAY element_level [leaf.1],
              next_pos := pos + 1, physical_fields := leaf.2 }
        | _ =>
          let leaf_level := own_optional node_schema cur_level_info
          let leaf := leaf_to_field node_schema leaf_level leaf_level.is_nullable physical_fields
          Except.ok { field := leaf.1, next_pos := pos + 1, physical_fields := leaf.2 }

/-- Modelled from the spec: the canonical case of a name, used as the key of
the name map under the case-insensitive policy: every letter `A`–`Z` in
lower case. -/
def fold_case (name : String) : String := ⟨name.data.map Char.toLower⟩

/-- Modelled from the spec: the key under which a name is inserted in and
looked up from the name map, "folding applied uniformly at both insert and
lookup time" when the policy is case-insensitive. -/
def name_key (case_sensitive : Bool) (name : String) : String :=
  if case_sensitive then name else fold_case name

/-- Modelled from the spec: the population of `_field_idx_by_name` from the
top-level fields, field `i` under the key of its name; a key already present
is rejected ("reject collisions at insert time rather than silently
overwriting"). The second argument is the index of the first field of the
list. -/
def index_names (case_sensitive : Bool) :
    List (Field PT) → Nat → List (String × Int) → Except SchemaError (List (String × Int))
  | [], _, field_idx_by_name => Except.ok field_idx_by_name
  | field :: fields, i, field_idx_by_name =>
    match field_idx_by_name.lookup (name_key case_sensitive field.name) with
    | some _ => Except.error SchemaError.DuplicateName
    | none =>
      index_names case_sensitive fields (i + 1)
        (field_idx_by_name ++ [(name_key case_sensitive field.name, (i : Int))])

/-- Modelled from the spec: `from_thrift` (declared in the header, body in
`schema.cpp`). It "validates the first node is the synthetic root (a group
whose children are the file's top-level columns), then node_to_field-recurses
over each top-level child", each from the root `LevelInfo`; an array not
consumed exactly is a StructuralMismatch ("a group's declared child count
does not match the number of elements actually available/consumed in the
flat array"); then it populates the name map. On
a failure it "does not partially publish state": the descriptor is the one
before the call. The answer is the status paired with the descriptor after
the call. -/
def from_thrift (d : SchemaDescriptor (SchemaElement PT) TypeDescriptor PT)
    (t_schemas : List (SchemaElement PT)) (case_sensitive : Bool) :
    Status × SchemaDescriptor (SchemaElement PT) TypeDescriptor PT :=
  match t_schemas[0]? with
  | none => (Except.error SchemaError.MissingRoot, d)
  | some root_schema =>
    match root_schema.num_children with
    | none => (Except.error SchemaError.MissingRoot, d)
    | some num_children =>
      match children_to_fields (node_to_field t_schemas t_schemas.length) num_children 1 {} []
        with
      | Except.error e => (Except.error e, d)
      | Except.ok (fields, next_pos, physical_fields) =>
        if next_pos ≠ t_schemas.length then (Except.error SchemaError.StructuralMismatch, d)
        else
          match index_names case_sensitive fields 0 [] with
          | Except.error e => (Except.error e, d)
          | Except.ok field_idx_by_name =>
            (Except.ok (),
              { _fields := fields, _physical_fields := physical_fields,
                _field_idx_by_name := field_idx_by_name, _case_sensitive := case_sensitive })

/-- Modelled from the spec: `get_column_index` (declared in the header, body
in `schema.cpp`), "looks up a top-level field by the configured case
policy": the index, or `none` for not-found. -/
def get_column_index (d : SchemaDescriptor (SchemaElement PT) TypeDescriptor PT)
    (column : String) : Option Int :=
  d._field_idx_by_name.lookup (name_key d._case_sensitive column)

/-! ### Notions used to state the properties of the conversion -/

/-- The pre-order layout of the flat array, as the data model words it: "a
group is immediately followed by its children's subtrees, in order, with no
explicit terminator — length is implied by each group's child count".
`Subtrees t k p q leaves` says that `k` consecutive subtrees occupy exactly
the positions `p, …, q - 1` of `t` and that `leaves` are the leaf nodes met
in them, in traversal order. The nodes reachable from the node at `p` are
those of `Subtrees t 1 p q leaves`. -/
inductive Subtrees (t : List (SchemaElement PT)) :
    Nat → Nat → Nat → List (SchemaElement PT) → Prop
  | done (p : Nat) : Subtrees t 0 p p []
  | leaf {k p q : Nat} {node : SchemaElement PT} {leaves : List (SchemaElement PT)} :
    t[p]? = some node → node.num_children = none → Subtrees t k (p + 1) q leaves →
      Subtrees t (k + 1) p q (node :: leaves)
  | group {k p m q c : Nat} {node : SchemaElement PT}
      {inner outer : List (SchemaElement PT)} :
    t[p]? = some node → node.num_children = some c → Subtrees t c (p + 1) m inner →
      Subtrees t k m q outer → Subtrees t (k + 1) p q (inner ++ outer)

/-- The leaf nodes of a flat array, in array order. -/
def leaf_nodes (t : List (SchemaElement PT)) : List (SchemaElement PT) :=
  t.filter (fun node => node.num_children.isNone)

mutual
/-- The scalar fields of the tree under a field, in pre-order traversal
order. -/
def leaves_of : Field PT → List (Field PT)
  | ⟨name, schema_element, type, is_nullable, physical_type, type_length, scale, precision,
      physical_column_index, level_info, children⟩ =>
    if type = TypeDescriptor.SCALAR then
      [⟨name, schema_element, type, is_nullable, physical_type, type_length, scale, precision,
        physical_column_index, level_info, children⟩]
    else leaves_of_list children
/-- The scalar fields of the trees under a sequence of fields, in pre-order
traversal order. -/
def leaves_of_list : List (Field PT) → List (Field PT)
  | [] => []
  | field :: fields => leaves_of field ++ leaves_of_list fields
end

/-- Two names that differ only by letter case: the same length, and at each
position the same character once the letters `A`–`Z` are put in lower
case. -/
def same_up_to_case (a b : String) : Prop :=
  List.Forall₂ (fun x y => Char.toLower x = Char.toLower y) a.data b.data

/-- What a successful conversion of `k` consecutive subtrees from `pos`
establishes: the subtrees occupy `pos, …, next_pos - 1` in pre-order; the
leaf sequence has grown by the scalar fields `tree_leaves` of the fields
built, one for each leaf node met, in traversal order, numbered from the
number of leaves recorded before. -/
def Converted (t : List (SchemaElement PT)) (k pos : Nat) (before : List (Field PT))
    (tree_leaves : List (Field PT)) (next_pos : Nat) (after : List (Field PT)) : Prop :=
  ∃ nodes, Subtrees t k pos next_pos nodes ∧ after = before ++ tree_leaves ∧
    tree_leaves.map (fun f => f.schema_element) = nodes ∧
    tree_leaves.map (fun f => f.physical_column_index) =
      (List.range' before.length tree_leaves.length).map Int.ofNat

/-- A conversion function whose every success is a `Converted` step of one
subtree. -/
def Sound (t : List (SchemaElement PT))
    (descend : Nat → LevelInfo → List (Field PT) → Except SchemaError (Parsed PT)) : Prop :=
  ∀ pos L before r, descend pos L before = Except.ok r →
    Converted t 1 pos before (leaves_of r.field) r.next_pos r.physical_fields

/-- A conversion function that does not answer `Unfinished` from position
`p` on. -/
def Finishes (descend : Nat → LevelInfo → List (Field PT) → Except SchemaError (Parsed PT))
    (p : Nat) : Prop :=
  ∀ pos L before, p ≤ pos → descend pos L before ≠ Except.error SchemaError.Unfinished

end SchemaDescriptor

/-! ## Sample flat schema arrays -/

/-- A leaf node of physical type 1 (INT32) with the given repetition. -/
def leaf_node (name : String) (repetition : Repetition) : SchemaElement Nat :=
  { name := name, repetition_type := some repetition, num_children := none,
    converted_type := none, type := 1, type_length := 0, scale := 0, precision := 0 }

/-- A group node with the given repetition, child count and converted type. -/
def group_node (name : String) (repetition : Option Repetition) (num_children : Nat)
    (converted_type : Option ConvertedType) : SchemaElement Nat :=
  { name := name, repetition_type := repetition, num_children := some num_children,
    converted_type := converted_type, type := 0, type_length := 0, scale := 0, precision := 0 }

/-- The flat array of `root { required id, optional name }`. -/
def id_name_schema : List (SchemaElement Nat) :=
  [group_node "root" none 2 none, leaf_node "id" Repetition.REQUIRED,
    leaf_node "name" Repetition.OPTIONAL]

/-- The flat array of `root { required id, required ID }`. -/
def id_ID_schema : List (SchemaElement Nat) :=
  [group_node "root" none 2 none, leaf_node "id" Repetition.REQUIRED,
    leaf_node "ID" Repetition.REQUIRED]

/-- A flat array whose root declares 3 children while 2 nodes follow. -/
def overrun_schema : List (SchemaElement Nat) :=
  [group_node "root" none 3 none, leaf_node "a" Repetition.REQUIRED,
    leaf_node "b" Repetition.OPTIONAL]

/-- The flat array of
`root { required s { required a, optional b }, optional tags (LIST) { repeated list { optional element } }, required c }`. -/
def nested_schema : List (SchemaElement Nat) :=
  [group_node "root" none 3 none,
    group_node "s" (some Repetition.REQUIRED) 2 none,
    leaf_node "a" Repetition.REQUIRED,
    leaf_node "b" Repetition.OPTIONAL,
    group_node "tags" (some Repetition.OPTIONAL) 1 (some ConvertedType.LIST),
    group_node "list" (some Repetition.REPEATED) 1 none,
    leaf_node "element" Repetition.OPTIONAL,
    leaf_node "c" Repetition.REQUIRED]

/-- The descriptor `from_thrift` builds from `id_name_schema` under the
case-insensitive policy. -/
def sample_converted : SchemaDescriptor (SchemaElement Nat) TypeDescriptor Nat :=
  (SchemaDescriptor.from_thrift {} id_name_schema false).2

/-! ## Arithmetic of `to_int16` -/

theorem to_int16_is_int16 (x : Int) : is_int16 (to_int16 x) := by
  unfold is_int16 to_int16; omega

theorem to_int16_of_is_int16 (x : Int) (h : is_int16 x) : to_int16 x = x := by
  unfold is_int16 at h; unfold to_int16; omega

theorem to_int16_succ (x : Int) (h : is_int16 x) (hlt : x < 32767) :
    to_int16 (x + 1) = x + 1 := by
  unfold is_int16 at h; unfold to_int16; omega

theorem to_int16_succ_max : to_int16 (32767 + 1) = -32768 := by
  decide

/-! ## Unfolding lemmas for `increment_repeated` -/

namespace LevelInfo

theorem increment_repeated_fst (L : LevelInfo) :
    (increment_repeated L).1 = L.immediate_repeated_ancestor_def_level := rfl

theorem increment_repeated_def (L : LevelInfo) :
    (increment_repeated L).2.max_def_level = to_int16 (L.max_def_level + 1) := rfl

theorem increment_repeated_rep (L : LevelInfo) :
    (increment_repeated L).2.max_rep_level = to_int16 (L.max_rep_level + 1) := rfl

theorem increment_repeated_anc (L : LevelInfo) :
    (increment_repeated L).2.immediate_repeated_ancestor_def_level =
      to_int16 (L.max_def_level + 1) := rfl

theorem increment_repeated_well_typed (L : LevelInfo) :
    well_typed (increment_repeated L).2 :=
  ⟨to_int16_is_int16 _, to_int16_is_int16 _, to_int16_is_int16 _⟩

end LevelInfo

/-! ## Claims about `LevelInfo` -/

namespace LevelInfo

/-- C1, as stated, fails at the top of the `int16_t` range: for the
well-typed record `{32767, 0, 0}` the stored `max_def_level` after
`increment_repeated` is `-32768`, not `32767 + 1`. -/
theorem increment_repeated_def_wraps_at_max :
    well_typed ⟨32767, 0, 0⟩ ∧
      (increment_repeated ⟨32767, 0, 0⟩).2.max_def_level = -32768 ∧
      (increment_repeated ⟨32767, 0, 0⟩).2.max_def_level ≠
        (⟨32767, 0, 0⟩ : LevelInfo).max_def_level + 1 := by
  decide

/-- C1 (amended): for every well-typed `L` whose `max_def_level` and
`max_rep_level` are below 32767, after `increment_repeated` the new
`max_def_level` is the old one plus 1, the new `max_rep_level` is the old
one plus 1, and the new `immediate_repeated_ancestor_def_level` equals the
new `max_def_level`. -/
theorem increment_repeated_fields (L : LevelInfo) (h : well_typed L)
    (hd : L.max_def_level < 32767) (hr : L.max_rep_level < 32767) :
    (increment_repeated L).2.max_def_level = L.max_def_level + 1 ∧
      (increment_repeated L).2.max_rep_level = L.max_rep_level + 1 ∧
      (increment_repeated L).2.immediate_repeated_ancestor_def_level =
        (increment_repeated L).2.max_def_level := by
  refine ⟨?_, ?_, rfl⟩
  · rw [increment_repeated_def]; exact to_int16_succ _ h.1 hd
  · rw [increment_repeated_rep]; exact to_int16_succ _ h.2.1 hr

/-- The amended C1 at the record `{3, 1, 2}`. -/
theorem increment_repeated_fields_witness :
    well_typed ⟨3, 1, 2⟩ ∧
      ((increment_repeated ⟨3, 1, 2⟩).2.max_def_level = (3 : Int) + 1 ∧
        (increment_repeated ⟨3, 1, 2⟩).2.max_rep_level = (1 : Int) + 1 ∧
        (increment_repeated ⟨3, 1, 2⟩).2.immediate_repeated_ancestor_def_level =
          (increment_repeated ⟨3, 1, 2⟩).2.max_def_level) :=
  ⟨by decide, increment_repeated_fields ⟨3, 1, 2⟩ (by decide) (by decide) (by decide)⟩

/-- C2: for every `L`, `increment_repeated` returns the value
`immediate_repeated_ancestor_def_level` had before the call; this is not the
anchor stored by the call, as the default record shows (0 is returned, 1 is
stored). -/
theorem increment_repeated_returns_previous_anchor :
    (∀ L : LevelInfo,
        (increment_repeated L).1 = L.immediate_repeated_ancestor_def_level) ∧
      (increment_repeated {}).1 = 0 ∧
      (increment_repeated {}).2.immediate_repeated_ancestor_def_level = 1 := by
  refine ⟨fun L => rfl, ?_, ?_⟩ <;> decide

/-- C3: for every `L`, `is_nullable` is true exactly when
`max_def_level > immediate_repeated_ancestor_def_level`, and its value is the
same whatever `max_rep_level` is. (Being a `const` member it is a function
of the record and returns no new record.) -/
theorem is_nullable_iff (L : LevelInfo) :
    (is_nullable L = true ↔
        L.max_def_level > L.immediate_repeated_ancestor_def_level) ∧
      ∀ r : Int, is_nullable { L with max_rep_level := r } = is_nullable L := by
  refine ⟨?_, fun r => rfl⟩
  unfold is_nullable
  exact decide_eq_true_iff

/-- C6, as stated, fails at the top of the `int16_t` range: the well-typed
record `{32767, 5, 32767}` satisfies the invariant, and after
`increment_repeated` it holds `{-32768, 6, -32768}`, which does not. -/
theorem increment_repeated_breaks_invariant_at_max :
    well_typed ⟨32767, 5, 32767⟩ ∧ invariant ⟨32767, 5, 32767⟩ ∧
      (increment_repeated ⟨32767, 5, 32767⟩).2 = ⟨-32768, 6, -32768⟩ ∧
      ¬ invariant (increment_repeated ⟨32767, 5, 32767⟩).2 := by
  decide

/-- C6 (amended): for every well-typed `L` satisfying the invariant and with
`max_def_level < 32767`, the record after `increment_repeated` is well typed
and satisfies the invariant again. -/
theorem increment_repeated_preserves_invariant (L : LevelInfo)
    (h : well_typed L) (hinv : invariant L) (hd : L.max_def_level < 32767) :
    well_typed (increment_repeated L).2 ∧ invariant (increment_repeated L).2 := by
  refine ⟨increment_repeated_well_typed L, ?_⟩
  obtain ⟨⟨hd1, hd2⟩, ⟨hr1, hr2⟩, ha1, ha2⟩ := h
  obtain ⟨i1, i2, i3⟩ := hinv
  unfold invariant
  rw [increment_repeated_def, increment_repeated_rep, increment_repeated_anc]
  unfold to_int16
  omega

/-- The amended C6 at the record `{2, 1, 1}`. -/
theorem increment_repeated_preserves_invariant_witness :
    well_typed ⟨2, 1, 1⟩ ∧ invariant ⟨2, 1, 1⟩ ∧
      (well_typed (increment_repeated ⟨2, 1, 1⟩).2 ∧
        invariant (increment_repeated ⟨2, 1, 1⟩).2) :=
  ⟨by decide, by decide,
    increment_repeated_preserves_invariant ⟨2, 1, 1⟩ (by decide) (by decide) (by decide)⟩

/-- C7, as stated, fails at the top of the `int16_t` range: the well-typed
record `{32767, 0, 0}` satisfies the invariant, and `increment_repeated`
takes its `max_def_level` from 32767 down to -32768 and its anchor from 0
down to -32768. -/
theorem increment_repeated_decreases_at_max :
    well_typed ⟨32767, 0, 0⟩ ∧ invariant ⟨32767, 0, 0⟩ ∧
      (increment_repeated ⟨32767, 0, 0⟩).2.max_def_level <
        (⟨32767, 0, 0⟩ : LevelInfo).max_def_level ∧
      (increment_repeated ⟨32767, 0, 0⟩).2.immediate_repeated_ancestor_def_level <
        (⟨32767, 0, 0⟩ : LevelInfo).immediate_repeated_ancestor_def_level := by
  decide

/-- C7 (amended): for every well-typed `L` satisfying the invariant and with
`max_def_level < 32767`, after `increment_repeated` each of `max_def_level`,
`max_rep_level` and `immediate_repeated_ancestor_def_level` is greater than
or equal to its value before the call. -/
theorem increment_repeated_monotone (L : LevelInfo)
    (h : well_typed L) (hinv : invariant L) (hd : L.max_def_level < 32767) :
    (increment_repeated L).2.max_def_level ≥ L.max_def_level ∧
      (increment_repeated L).2.max_rep_level ≥ L.max_rep_level ∧
      (increment_repeated L).2.immediate_repeated_ancestor_def_level ≥
        L.immediate_repeated_ancestor_def_level := by
  obtain ⟨⟨hd1, hd2⟩, ⟨hr1, hr2⟩, ha1, ha2⟩ := h
  obtain ⟨i1, i2, i3⟩ := hinv
  rw [increment_repeated_def, increment_repeated_rep, increment_repeated_anc]
  unfold to_int16
  omega

/-- The amended C7 at the record `{4, 2, 3}`. -/
theorem increment_repeated_monotone_witness :
    well_typed ⟨4, 2, 3⟩ ∧ invariant ⟨4, 2, 3⟩ ∧
      ((increment_repeated ⟨4, 2, 3⟩).2.max_def_level ≥ (4 : Int) ∧
        (increment_repeated ⟨4, 2, 3⟩).2.max_rep_level ≥ (2 : Int) ∧
        (increment_repeated ⟨4, 2, 3⟩).2.immediate_repeated_ancestor_def_level ≥
          (3 : Int)) :=
  ⟨by decide, by decide,
    increment_repeated_monotone ⟨4, 2, 3⟩ (by decide) (by decide) (by decide)⟩

/-- C8: a default-constructed `LevelInfo` (the record at the schema root,
and so, no field being changed for a REQUIRED node, the record of a REQUIRED
leaf directly under the root) has `max_def_level = 0`, `max_rep_level = 0`,
`immediate_repeated_ancestor_def_level = 0`, and is not nullable. -/
theorem default_level_info :
    ({} : LevelInfo) = ⟨0, 0, 0⟩ ∧
      ({} : LevelInfo).max_def_level = 0 ∧ ({} : LevelInfo).max_rep_level = 0 ∧
      ({} : LevelInfo).immediate_repeated_ancestor_def_level = 0 ∧
      is_nullable {} = false := by
  decide

/-- C9: for every `L`, the record left by `increment_repeated` (which,
no field being changed for a REQUIRED node, is the record of a REQUIRED
child directly under the repeated group) is not nullable. -/
theorem increment_repeated_not_nullable (L : LevelInfo) :
    is_nullable (increment_repeated L).2 = false := by
  unfold is_nullable
  rw [increment_repeated_def, increment_repeated_anc]
  simp

/-- C10, as stated, fails near the top of the `int16_t` range. From the
well-typed record `{32767, 0, 0}`, `increment_repeated` alone already wraps
and the final `max_def_level` is `-32767`, not the old `max_def_level` plus
2. From the well-typed record `{32766, 0, 0}`, `increment_repeated` followed
by the OPTIONAL update gives `{-32768, 1, 32767}`, whose `max_def_level` is
neither the anchor plus 1 nor the old `max_def_level` plus 2, and which is
not nullable. -/
theorem repeated_then_optional_wraps_near_max :
    well_typed ⟨32767, 0, 0⟩ ∧
      descend_optional (increment_repeated ⟨32767, 0, 0⟩).2 = ⟨-32767, 1, -32768⟩ ∧
      (descend_optional (increment_repeated ⟨32767, 0, 0⟩).2).max_def_level ≠
        (⟨32767, 0, 0⟩ : LevelInfo).max_def_level + 2 ∧
      well_typed ⟨32766, 0, 0⟩ ∧
      descend_optional (increment_repeated ⟨32766, 0, 0⟩).2 = ⟨-32768, 1, 32767⟩ ∧
      (descend_optional (increment_repeated ⟨32766, 0, 0⟩).2).max_def_level ≠
        (descend_optional
          (increment_repeated ⟨32766, 0, 0⟩).2).immediate_repeated_ancestor_def_level + 1 ∧
      (descend_optional (increment_repeated ⟨32766, 0, 0⟩).2).max_def_level ≠
        (⟨32766, 0, 0⟩ : LevelInfo).max_def_level + 2 ∧
      is_nullable (descend_optional (increment_repeated ⟨32766, 0, 0⟩).2) = false := by
  decide

/-- C10 (amended): for every well-typed `L` with `max_def_level < 32766` and
`max_rep_level < 32767`, `increment_repeated` followed by the OPTIONAL
update yields `max_rep_level` = old `max_rep_level` + 1, `max_def_level` =
`immediate_repeated_ancestor_def_level` + 1 = old `max_def_level` + 2, and a
nullable record; from the root record `{0,0,0}` the result is `{2, 1, 1}`. -/
theorem repeated_then_optional (L : LevelInfo) (h : well_typed L)
    (hd : L.max_def_level < 32766) (hr : L.max_rep_level < 32767) :
    (descend_optional (increment_repeated L).2).max_rep_level = L.max_rep_level + 1 ∧
      (descend_optional (increment_repeated L).2).max_def_level =
        (descend_optional
          (increment_repeated L).2).immediate_repeated_ancestor_def_level + 1 ∧
      (descend_optional (increment_repeated L).2).max_def_level = L.max_def_level + 2 ∧
      is_nullable (descend_optional (increment_repeated L).2) = true ∧
      descend_optional (increment_repeated {}).2 = ⟨2, 1, 1⟩ := by
  obtain ⟨⟨hd1, hd2⟩, ⟨hr1, hr2⟩, ha1, ha2⟩ := h
  have e1 : (descend_optional (increment_repeated L).2).max_rep_level =
      to_int16 (L.max_rep_level + 1) := rfl
  have e2 : (descend_optional (increment_repeated L).2).max_def_level =
      to_int16 (to_int16 (L.max_def_level + 1) + 1) := rfl
  have e3 : (descend_optional
      (increment_repeated L).2).immediate_repeated_ancestor_def_level =
      to_int16 (L.max_def_level + 1) := rfl
  have a1 : to_int16 (L.max_rep_level + 1) = L.max_rep_level + 1 :=
    to_int16_succ _ ⟨hr1, hr2⟩ hr
  have a2 : to_int16 (L.max_def_level + 1) = L.max_def_level + 1 :=
    to_int16_succ _ ⟨hd1, hd2⟩ (by omega)
  have a3 : to_int16 (L.max_def_level + 1 + 1) = L.max_def_level + 1 + 1 :=
    to_int16_succ _ ⟨by omega, by omega⟩ (by omega)
  refine ⟨?_, ?_, ?_, ?_, by decide⟩
  · rw [e1, a1]
  · rw [e2, e3, a2, a3]
  · rw [e2, a2, a3]; omega
  · unfold is_nullable
    rw [e2, e3, a2, a3]
    simp

/-- The amended C10 at the record `{1, 0, 0}`. -/
theorem repeated_then_optional_witness :
    well_typed ⟨1, 0, 0⟩ ∧
      ((descend_optional (increment_repeated ⟨1, 0, 0⟩).2).max_rep_level = (0 : Int) + 1 ∧
        (descend_optional (increment_repeated ⟨1, 0, 0⟩).2).max_def_level =
          (descend_optional
            (increment_repeated ⟨1, 0, 0⟩).2).immediate_repeated_ancestor_def_level + 1 ∧
        (descend_optional (increment_repeated ⟨1, 0, 0⟩).2).max_def_level = (1 : Int) + 2 ∧
        is_nullable (descend_optional (increment_repeated ⟨1, 0, 0⟩).2) = true ∧
        descend_optional (increment_repeated {}).2 = ⟨2, 1, 1⟩) :=
  ⟨by decide, repeated_then_optional ⟨1, 0, 0⟩ (by decide) (by decide) (by decide)⟩

/-- From a record whose three fields all hold `m`, `n` calls return
`m, m + 1, …, m + n - 1` and leave all three fields at `m + n`, as long as
`m + n` does not exceed 32767. -/
theorem increment_repeated_times_from (n : Nat) :
    ∀ m : Nat, m + n ≤ 32767 →
      increment_repeated_times n ⟨m, m, m⟩ =
        ((List.range' m n).map Int.ofNat, ⟨(m + n : Nat), (m + n : Nat), (m + n : Nat)⟩) := by
  induction n with
  | zero => intro m _; rfl
  | succ n ih =>
    intro m hm
    have hstep : (increment_repeated ⟨m, m, m⟩).2 =
        ⟨((m + 1 : Nat) : Int), ((m + 1 : Nat) : Int), ((m + 1 : Nat) : Int)⟩ := by
      have e : to_int16 ((m : Int) + 1) = ((m + 1 : Nat) : Int) := by
        unfold to_int16; omega
      show (⟨to_int16 ((m : Int) + 1), to_int16 ((m : Int) + 1),
        to_int16 ((m : Int) + 1)⟩ : LevelInfo) = _
      rw [e]
    have hrec := ih (m + 1) (by omega)
    show ((increment_repeated ⟨m, m, m⟩).1 ::
        (increment_repeated_times n (increment_repeated ⟨m, m, m⟩).2).1,
        (increment_repeated_times n (increment_repeated ⟨m, m, m⟩).2).2) = _
    rw [hstep, hrec, List.range'_succ]
    have e2 : m + 1 + n = m + (n + 1) := by omega
    simp only [e2]
    rfl

/-- C14: for every well-typed `L` with `max_rep_level ≤ max_def_level < 32767`
the values `increment_repeated` stores in `max_def_level` and `max_rep_level`
are the exact integers old `max_def_level` + 1 and old `max_rep_level` + 1;
and there is a well-typed record with `max_def_level = 32767` whose stored
`max_def_level` differs from the exact sum. -/
theorem increment_repeated_no_wrap_below_limit (L : LevelInfo) (h : well_typed L)
    (hrd : L.max_rep_level ≤ L.max_def_level) (hd : L.max_def_level < 32767) :
    (increment_repeated L).2.max_def_level = L.max_def_level + 1 ∧
      (increment_repeated L).2.max_rep_level = L.max_rep_level + 1 ∧
      ∃ M : LevelInfo, well_typed M ∧ M.max_def_level = 32767 ∧
        (increment_repeated M).2.max_def_level ≠ M.max_def_level + 1 := by
  refine ⟨?_, ?_, ⟨32767, 0, 0⟩, by decide, rfl, by decide⟩
  · rw [increment_repeated_def]; exact to_int16_succ _ h.1 hd
  · rw [increment_repeated_rep]; exact to_int16_succ _ h.2.1 (by omega)

/-- C14 at the record `{7, 3, 5}`. -/
theorem increment_repeated_no_wrap_below_limit_witness :
    well_typed ⟨7, 3, 5⟩ ∧ (3 : Int) ≤ 7 ∧ (7 : Int) < 32767 ∧
      ((increment_repeated ⟨7, 3, 5⟩).2.max_def_level = (7 : Int) + 1 ∧
        (increment_repeated ⟨7, 3, 5⟩).2.max_rep_level = (3 : Int) + 1 ∧
        ∃ M : LevelInfo, well_typed M ∧ M.max_def_level = 32767 ∧
          (increment_repeated M).2.max_def_level ≠ M.max_def_level + 1) :=
  ⟨by decide, by decide, by decide,
    increment_repeated_no_wrap_below_limit ⟨7, 3, 5⟩ (by decide) (by decide) (by decide)⟩

/-- C15: for every `n ≤ 32767`, `n` calls of `increment_repeated` on a
default-constructed `LevelInfo` leave `max_def_level = max_rep_level =
immediate_repeated_ancestor_def_level = n`; there are `n` returned values and
the `k`-th call (counting from 1) returns `k - 1`. -/
theorem increment_repeated_times_default (n : Nat) (h : n ≤ 32767) :
    (increment_repeated_times n {}).2 = ⟨(n : Int), (n : Int), (n : Int)⟩ ∧
      (increment_repeated_times n {}).1.length = n ∧
      ∀ k : Nat, 1 ≤ k → k ≤ n →
        (increment_repeated_times n {}).1[k - 1]? = some ((k : Int) - 1) := by
  have key := increment_repeated_times_from n 0 (by omega)
  have e0 : (⟨((0 : Nat) : Int), ((0 : Nat) : Int), ((0 : Nat) : Int)⟩ : LevelInfo) = {} := rfl
  rw [e0] at key
  rw [key]
  refine ⟨by simp, by simp, ?_⟩
  intro k hk1 hkn
  have hlt : k - 1 < n := by omega
  simp only [List.getElem?_map]
  rw [List.getElem?_range' 0 1 hlt]
  simp only [Option.map_some', Int.ofNat_eq_coe]
  congr 1
  omega

/-- C15 at `n = 3`: the record is `{3, 3, 3}` and the calls returned 0, 1, 2. -/
theorem increment_repeated_times_default_witness :
    (3 : Nat) ≤ 32767 ∧
      ((increment_repeated_times 3 {}).2 = ⟨((3 : Nat) : Int), ((3 : Nat) : Int), ((3 : Nat) : Int)⟩ ∧
        (increment_repeated_times 3 {}).1.length = 3 ∧
        ∀ k : Nat, 1 ≤ k → k ≤ 3 →
          (increment_repeated_times 3 {}).1[k - 1]? = some ((k : Int) - 1)) :=
  ⟨by decide, increment_repeated_times_default 3 (by decide)⟩

/-- C16: for every `L`, the difference `max_def_level - max_rep_level` after
`increment_repeated` is congruent modulo `2^16` to the difference before the
call; as `int16_t` values the two differences are equal. -/
theorem increment_repeated_preserves_gap (L : LevelInfo) :
    ((increment_repeated L).2.max_def_level - (increment_repeated L).2.max_rep_level) % 65536 =
        (L.max_def_level - L.max_rep_level) % 65536 ∧
      to_int16 ((increment_repeated L).2.max_def_level -
          (increment_repeated L).2.max_rep_level) =
        to_int16 (L.max_def_level - L.max_rep_level) := by
  rw [increment_repeated_def, increment_repeated_rep]
  unfold to_int16
  constructor <;> omega

end LevelInfo

/-! ## Claims about `ParquetField` -/

namespace ParquetField

variable {SE TD PT : Type}

/-- C17: for every field `f`, `max_def_level()` is `f.level_info.max_def_level`
and `max_rep_level()` is `f.level_info.max_rep_level`; neither changes when
the field's `is_nullable` flag or its children are replaced. -/
theorem level_accessors (f : ParquetField SE TD PT) :
    max_def_level f = f.level_info.max_def_level ∧
      max_rep_level f = f.level_info.max_rep_level ∧
      ∀ (b : Bool) (cs : List (ParquetField SE TD PT)),
        max_def_level { f with is_nullable := b, children := cs } = max_def_level f ∧
          max_rep_level { f with is_nullable := b, children := cs } = max_rep_level f :=
  ⟨rfl, rfl, fun _ _ => ⟨rfl, rfl⟩⟩

end ParquetField

/-! ## Claims about `SchemaDescriptor` -/

namespace SchemaDescriptor

variable {SE TD PT : Type}

theorem size_t_of_int_of_nonneg (idx : Int) (h : is_int32 idx) (h0 : 0 ≤ idx) :
    size_t_of_int idx = idx.toNat := by
  unfold is_int32 at h
  unfold size_t_of_int
  congr 1
  omega

/-- C4, as stated, fails on the descriptor of `root { s { a, b }, c }`:
index 1 is below the leaf count 3, the leaf at index 1 is `b` (physical
column 1), and `get_stored_column_by_idx 1` is the top-level field `c`
(physical column 2). -/
theorem get_stored_column_by_idx_is_not_leaf_index :
    (1 : Int) < leaf_count sample_descriptor ∧
      (sample_descriptor._physical_fields[1]?).map (fun f => (f.name, f.physical_column_index))
        = some ("b", 1) ∧
      (get_stored_column_by_idx sample_descriptor 1).map
          (fun f => (f.name, f.physical_column_index)) = some ("c", 2) ∧
      get_stored_column_by_idx sample_descriptor 1 ≠ sample_descriptor._physical_fields[1]? := by
  refine ⟨by decide, by decide, by decide, ?_⟩
  intro h
  have h2 := congrArg (Option.map (fun f => f.physical_column_index)) h
  revert h2
  decide

/-- C4 (amended): `get_stored_column_by_idx(idx)` is a direct index into
the top-level field sequence `_fields`: for every descriptor and every `int`
`idx` with `0 ≤ idx < _fields.size()` it returns the `idx`-th top-level
field, whatever the leaf sequence `_physical_fields` holds. -/
theorem get_stored_column_by_idx_top_level (d : SchemaDescriptor SE TD PT) (idx : Int)
    (h : is_int32 idx) (h0 : 0 ≤ idx) (hlt : idx < d._fields.length) :
    (∃ f, get_stored_column_by_idx d idx = some f ∧ d._fields[idx.toNat]? = some f) ∧
      ∀ p, get_stored_column_by_idx { d with _physical_fields := p } idx =
        get_stored_column_by_idx d idx := by
  refine ⟨?_, fun p => rfl⟩
  have hn : idx.toNat < d._fields.length := by omega
  refine ⟨d._fields[idx.toNat], ?_, ?_⟩
  · unfold get_stored_column_by_idx
    rw [size_t_of_int_of_nonneg idx h h0]
    exact List.getElem?_eq_getElem hn
  · exact List.getElem?_eq_getElem hn

/-- The amended C4 on the sample descriptor at index 1. -/
theorem get_stored_column_by_idx_top_level_witness :
    is_int32 1 ∧ (0 : Int) ≤ 1 ∧ (1 : Int) < sample_descriptor._fields.length ∧
      ((∃ f, get_stored_column_by_idx sample_descriptor 1 = some f ∧
          sample_descriptor._fields[(1 : Int).toNat]? = some f) ∧
        ∀ p, get_stored_column_by_idx { sample_descriptor with _physical_fields := p } 1 =
          get_stored_column_by_idx sample_descriptor 1) :=
  ⟨by decide, by decide, by decide,
    get_stored_column_by_idx_top_level sample_descriptor 1 (by decide) (by decide) (by decide)⟩

/-- C5, as stated, fails on the descriptor of `root { s { a, b }, c }`:
index 2 satisfies `0 ≤ 2 < leaf_count = 3`, yet `_fields` has 2 entries and
the element access of `get_stored_column_by_idx 2` is outside it. -/
theorem get_stored_column_by_idx_out_of_bounds_below_leaf_count :
    is_int32 2 ∧ (0 : Int) ≤ 2 ∧ (2 : Int) < leaf_count sample_descriptor ∧
      sample_descriptor._fields.length = 2 ∧
      (get_stored_column_by_idx sample_descriptor 2).isSome = false := by
  decide

/-- C5 (amended): under the precondition `0 ≤ idx < _fields.size()` (the
number of top-level fields), the element access performed by
`get_stored_column_by_idx(idx)` is in bounds, for every descriptor state. -/
theorem get_stored_column_by_idx_in_bounds (d : SchemaDescriptor SE TD PT) (idx : Int)
    (h : is_int32 idx) (h0 : 0 ≤ idx) (hlt : idx < d._fields.length) :
    size_t_of_int idx < d._fields.length ∧
      (get_stored_column_by_idx d idx).isSome = true := by
  have hn : idx.toNat < d._fields.length := by omega
  have hs := size_t_of_int_of_nonneg idx h h0
  refine ⟨by omega, ?_⟩
  unfold get_stored_column_by_idx
  rw [hs, List.getElem?_eq_getElem hn]
  rfl

/-- The amended C5 on the sample descriptor at index 0. -/
theorem get_stored_column_by_idx_in_bounds_witness :
    is_int32 0 ∧ (0 : Int) ≤ 0 ∧ (0 : Int) < sample_descriptor._fields.length ∧
      (size_t_of_int 0 < sample_descriptor._fields.length ∧
        (get_stored_column_by_idx sample_descriptor 0).isSome = true) :=
  ⟨by decide, by decide, by decide,
    get_stored_column_by_idx_in_bounds sample_descriptor 0 (by decide) (by decide) (by decide)⟩

end SchemaDescriptor

/-! ## The conversion of the flat schema array -/

namespace SchemaDescriptor

variable {PT : Type}

/-! ### The pre-order layout -/

theorem Subtrees.append_subtrees {t : List (SchemaElement PT)} {a p m : Nat}
    {l1 : List (SchemaElement PT)} (h1 : Subtrees t a p m l1) :
    ∀ {b q : Nat} {l2 : List (SchemaElement PT)}, Subtrees t b m q l2 →
      Subtrees t (a + b) p q (l1 ++ l2) := by
  induction h1 with
  | done p => intro b q l2 h2; simpa using h2
  | leaf hn hc _ ih =>
    intro b q l2 h2
    have := Subtrees.leaf hn hc (ih h2)
    rw [Nat.add_right_comm]
    simpa using this
  | group hn hc hin _ _ ih2 =>
    intro b q l2 h2
    have := Subtrees.group hn hc hin (ih2 h2)
    rw [Nat.add_right_comm, List.append_assoc]
    exact this

theorem Subtrees.bounds {t : List (SchemaElement PT)} {k p q : Nat}
    {ls : List (SchemaElement PT)} (h : Subtrees t k p q ls) :
    p + k ≤ q ∧ (p ≤ t.length → q ≤ t.length) := by
  induction h with
  | done p => exact ⟨by omega, fun h => h⟩
  | @leaf k p q node ls hn _ _ ih =>
    have hp : p < t.length := (List.getElem?_eq_some_iff.mp hn).1
    exact ⟨by omega, fun _ => ih.2 (by omega)⟩
  | @group k p m q c node inner outer hn _ _ _ ih1 ih2 =>
    have hp : p < t.length := (List.getElem?_eq_some_iff.mp hn).1
    exact ⟨by omega, fun _ => ih2.2 (ih1.2 (by omega))⟩

theorem Subtrees.child_count {t : List (SchemaElement PT)} {k p q : Nat}
    {ls : List (SchemaElement PT)} (h : Subtrees t k p q ls) :
    ∀ i node c, p ≤ i → i < q → t[i]? = some node → node.num_children = some c →
      i + c < q := by
  induction h with
  | done p => intro i node c h1 h2; omega
  | @leaf k p q node ls hn hc hrest ih =>
    intro i nd c h1 h2 hi hci
    by_cases hip : i = p
    · subst hip
      rw [hn] at hi
      cases hi
      rw [hc] at hci
      cases hci
    · exact ih i nd c (by omega) h2 hi hci
  | @group k p m q c node inner outer hn hc hin hout ih1 ih2 =>
    intro i nd c2 h1 h2 hi hci
    have b1 := hin.bounds
    have b2 := hout.bounds
    by_cases hip : i = p
    · subst hip
      rw [hn] at hi
      cases hi
      rw [hc] at hci
      cases hci
      omega
    · by_cases him : i < m
      · have := ih1 i nd c2 (by omega) him hi hci
        omega
      · exact ih2 i nd c2 (by omega) h2 hi hci

theorem drop_take_split (t : List (SchemaElement PT)) (a m q : Nat)
    (h1 : a ≤ m) (h2 : m ≤ q) (h3 : m ≤ t.length) :
    (t.take q).drop a = (t.take m).drop a ++ (t.take q).drop m := by
  have e : t.take q = t.take m ++ (t.drop m).take (q - m) := by
    have : q = m + (q - m) := by omega
    conv_lhs => rw [this]
    exact List.take_add t m (q - m)
  have hl : (t.take m).length = m := by simp [h3]
  rw [e, List.drop_append_of_le_length (by omega)]
  congr 1
  rw [List.drop_append_eq_append_drop]
  simp [hl]

theorem Subtrees.leaves_eq {t : List (SchemaElement PT)} {k p q : Nat}
    {ls : List (SchemaElement PT)} (h : Subtrees t k p q ls) :
    ls = leaf_nodes ((t.take q).drop p) := by
  induction h with
  | done p =>
    have e : (t.take p).drop p = [] := List.drop_eq_nil_of_le (by simp)
    rw [e]; rfl
  | @leaf k p q node ls hn hc hrest ih =>
    have hp : p < t.length := (List.getElem?_eq_some_iff.mp hn).1
    have hb := hrest.bounds
    have hpq : p < (t.take q).length := by simp; omega
    have hget : (t.take q)[p] = node := by
      rw [List.getElem_take]
      exact (List.getElem?_eq_some_iff.mp hn).2
    rw [List.drop_eq_getElem_cons hpq, hget]
    simp [leaf_nodes, hc] at ih ⊢
    exact ih
  | @group k p m q c node inner outer hn hc hin hout ih1 ih2 =>
    have hp : p < t.length := (List.getElem?_eq_some_iff.mp hn).1
    have b1 := hin.bounds
    have b2 := hout.bounds
    have hm : m ≤ t.length := b1.2 (by omega)
    have hpq : p < (t.take q).length := by simp; omega
    have hget : (t.take q)[p] = node := by
      rw [List.getElem_take]
      exact (List.getElem?_eq_some_iff.mp hn).2
    rw [List.drop_eq_getElem_cons hpq, hget, drop_take_split t (p + 1) m q (by omega) (by omega) hm]
    simp only [leaf_nodes, List.filter_cons, hc, Option.isNone_some, List.filter_append] at ih1 ih2 ⊢
    rw [← ih1, ← ih2]
    simp

/-! ### Steps of the conversion -/

theorem leaves_of_leaf_to_field (node : SchemaElement PT) (L : LevelInfo) (nu : Bool)
    (before : List (Field PT)) :
    leaves_of (leaf_to_field node L nu before).1 = [(leaf_to_field node L nu before).1] := by
  simp [leaf_to_field, leaves_of]

theorem leaves_of_composite_field (node : SchemaElement PT) (ty : TypeDescriptor)
    (L : LevelInfo) (children : List (Field PT)) (h : ty ≠ TypeDescriptor.SCALAR) :
    leaves_of (composite_field node ty L children) = leaves_of_list children := by
  simp [composite_field, leaves_of, h]

theorem leaves_of_list_singleton (f : Field PT) : leaves_of_list [f] = leaves_of f := by
  simp [leaves_of_list]

theorem Converted.nil_step (t : List (SchemaElement PT)) (p : Nat) (before : List (Field PT)) :
    Converted t 0 p before [] p before :=
  ⟨[], Subtrees.done p, by simp, rfl, rfl⟩

theorem Converted.leaf_step {t : List (SchemaElement PT)} {pos : Nat} {node : SchemaElement PT}
    (hn : t[pos]? = some node) (hc : node.num_children = none) (L : LevelInfo) (nu : Bool)
    (before : List (Field PT)) :
    Converted t 1 pos before [(leaf_to_field node L nu before).1] (pos + 1)
      (leaf_to_field node L nu before).2 :=
  ⟨[node], Subtrees.leaf hn hc (Subtrees.done _), rfl, rfl, by simp [leaf_to_field]⟩

theorem Converted.group_step {t : List (SchemaElement PT)} {pos c next_pos : Nat}
    {node : SchemaElement PT} {before tl after : List (Field PT)}
    (hn : t[pos]? = some node) (hc : node.num_children = some c)
    (h : Converted t c (pos + 1) before tl next_pos after) :
    Converted t 1 pos before tl next_pos after := by
  obtain ⟨nodes, hp, h1, h2, h3⟩ := h
  refine ⟨nodes, ?_, h1, h2, h3⟩
  have := Subtrees.group hn hc hp (Subtrees.done next_pos)
  simpa using this

theorem Converted.append_step {t : List (SchemaElement PT)} {a b p m q : Nat}
    {before tl1 mid tl2 after : List (Field PT)}
    (h1 : Converted t a p before tl1 m mid) (h2 : Converted t b m mid tl2 q after) :
    Converted t (a + b) p before (tl1 ++ tl2) q after := by
  obtain ⟨n1, hp1, e1, s1, i1⟩ := h1
  obtain ⟨n2, hp2, e2, s2, i2⟩ := h2
  refine ⟨n1 ++ n2, hp1.append_subtrees hp2, ?_, ?_, ?_⟩
  · rw [e2, e1, List.append_assoc]
  · rw [List.map_append, s1, s2]
  · rw [List.map_append, i1, i2, e1, List.length_append, List.length_append,
      ← List.map_append, List.range'_append_1, Nat.add_comm tl2.length]

theorem children_to_fields_sound {t : List (SchemaElement PT)}
    {descend : Nat → LevelInfo → List (Field PT) → Except SchemaError (Parsed PT)}
    (hs : Sound t descend) (L : LevelInfo) :
    ∀ (k pos : Nat) (before fields : List (Field PT)) (next_pos : Nat)
      (after : List (Field PT)),
      children_to_fields descend k pos L before = Except.ok (fields, next_pos, after) →
        Converted t k pos before (leaves_of_list fields) next_pos after ∧ fields.length = k := by
  intro k
  induction k with
  | zero =>
    intro pos before fields next_pos after h
    simp only [children_to_fields, Except.ok.injEq, Prod.mk.injEq] at h
    obtain ⟨rfl, rfl, rfl⟩ := h
    exact ⟨Converted.nil_step t pos before, rfl⟩
  | succ k ih =>
    intro pos before fields next_pos after h
    unfold children_to_fields at h
    split at h
    · cases h
    · rename_i first hfirst
      split at h
      · cases h
      · rename_i others np ph hrest
        simp only [Except.ok.injEq, Prod.mk.injEq] at h
        obtain ⟨rfl, rfl, rfl⟩ := h
        have c1 := hs pos L before first hfirst
        have c2 := ih first.next_pos first.physical_fields others np ph hrest
        have := c1.append_step c2.1
        rw [Nat.add_comm] at this
        exact ⟨by simpa [leaves_of_list] using this, by simp [c2.2]⟩

theorem group_to_struct_field_sound {t : List (SchemaElement PT)}
    {descend : Nat → LevelInfo → List (Field PT) → Except SchemaError (Parsed PT)}
    (hs : Sound t descend) {pos c : Nat} {node : SchemaElement PT}
    (hn : t[pos]? = some node) (hc : node.num_children = some c) (L : LevelInfo)
    (before : List (Field PT)) (r : Parsed PT)
    (h : group_to_struct_field descend node c pos L before = Except.ok r) :
    Converted t 1 pos before (leaves_of r.field) r.next_pos r.physical_fields := by
  unfold group_to_struct_field at h
  split at h
  · cases h
  · rename_i children np ph hch
    simp only [Except.ok.injEq] at h
    subst h
    have c1 := (children_to_fields_sound hs L c (pos + 1) before children np ph hch).1
    rw [leaves_of_composite_field _ _ _ _ (by decide)]
    exact Converted.group_step hn hc c1

theorem list_to_field_sound {t : List (SchemaElement PT)}
    {descend : Nat → LevelInfo → List (Field PT) → Except SchemaError (Parsed PT)}
    (hs : Sound t descend) {pos c : Nat} {node : SchemaElement PT}
    (hn : t[pos]? = some node) (hc : node.num_children = some c) (L : LevelInfo)
    (before : List (Field PT)) (r : Parsed PT)
    (h : list_to_field descend t node c pos L before = Except.ok r) :
    Converted t 1 pos before (leaves_of r.field) r.next_pos r.physical_fields := by
  unfold list_to_field at h
  split at h
  · cases h
  · rename_i hc1
    have hc1 : c = 1 := by simpa using hc1
    subst hc1
    simp only at h
    split at h
    · cases h
    · rename_i child hchild
      split at h
      · cases h
      · split at h
        · rename_i hleaf
          simp only [Except.ok.injEq] at h
          subst h
          simp only [leaves_of_composite_field _ _ _ _ (show TypeDescriptor.ARRAY ≠
            TypeDescriptor.SCALAR by decide), leaves_of_list_singleton, leaves_of_leaf_to_field]
          exact Converted.group_step hn hc (Converted.leaf_step hchild hleaf _ _ _)
        · rename_i cc hgroup
          split at h
          · cases h
          · split at h
            · rename_i hwrap
              have hcc : cc = 1 := hwrap.1
              subst hcc
              split at h
              · cases h
              · rename_i element helem
                simp only [Except.ok.injEq] at h
                subst h
                simp only [leaves_of_composite_field _ _ _ _ (show TypeDescriptor.ARRAY ≠
                  TypeDescriptor.SCALAR by decide), leaves_of_list_singleton]
                exact Converted.group_step hn hc (Converted.group_step hchild hgroup (hs _ _ _ _ helem))
            · split at h
              · cases h
              · rename_i element helem
                simp only [Except.ok.injEq] at h
                subst h
                simp only [leaves_of_composite_field _ _ _ _ (show TypeDescriptor.ARRAY ≠
                  TypeDescriptor.SCALAR by decide), leaves_of_list_singleton]
                exact Converted.group_step hn hc
                  (group_to_struct_field_sound hs hchild hgroup _ _ _ helem)

theorem map_to_field_sound {t : List (SchemaElement PT)}
    {descend : Nat → LevelInfo → List (Field PT) → Except SchemaError (Parsed PT)}
    (hs : Sound t descend) {pos c : Nat} {node : SchemaElement PT}
    (hn : t[pos]? = some node) (hc : node.num_children = some c) (L : LevelInfo)
    (before : List (Field PT)) (r : Parsed PT)
    (h : map_to_field descend t node c pos L before = Except.ok r) :
    Converted t 1 pos before (leaves_of r.field) r.next_pos r.physical_fields := by
  unfold map_to_field at h
  split at h
  · cases h
  · rename_i hc1
    have hc1 : c = 1 := by simpa using hc1
    subst hc1
    simp only at h
    split at h
    · cases h
    · rename_i kv hkv
      split at h
      · cases h
      · rename_i hshape
        have hkv2 : kv.num_children = some 2 := by
          by_contra hne
          exact hshape (Or.inr hne)
        split at h
        · cases h
        · split at h
          · cases h
          · split at h
            · cases h
            · rename_i key_value np ph hch
              simp only [Except.ok.injEq] at h
              subst h
              simp only [leaves_of_composite_field _ _ _ _ (show TypeDescriptor.MAP ≠
                TypeDescriptor.SCALAR by decide)]
              exact Converted.group_step hn hc (Converted.group_step hkv hkv2
                (children_to_fields_sound hs _ 2 (pos + 2) before key_value np ph hch).1)

theorem group_to_field_sound {t : List (SchemaElement PT)}
    {descend : Nat → LevelInfo → List (Field PT) → Except SchemaError (Parsed PT)}
    (hs : Sound t descend) {pos c : Nat} {node : SchemaElement PT}
    (hn : t[pos]? = some node) (hc : node.num_children = some c) (L : LevelInfo)
    (before : List (Field PT)) (r : Parsed PT)
    (h : group_to_field descend t node c pos L before = Except.ok r) :
    Converted t 1 pos before (leaves_of r.field) r.next_pos r.physical_fields := by
  unfold group_to_field at h
  split at h
  · exact list_to_field_sound hs hn hc L before r h
  · exact map_to_field_sound hs hn hc L before r h
  · split at h
    · simp only at h
      split at h
      · cases h
      · rename_i element helem
        simp only [Except.ok.injEq] at h
        subst h
        simp only [leaves_of_composite_field _ _ _ _ (show TypeDescriptor.ARRAY ≠
          TypeDescriptor.SCALAR by decide), leaves_of_list_singleton]
        exact group_to_struct_field_sound hs hn hc _ _ _ helem
    · exact group_to_struct_field_sound hs hn hc _ _ _ h

theorem node_to_field_sound (t : List (SchemaElement PT)) :
    ∀ budget : Nat, Sound t (node_to_field t budget) := by
  intro budget
  induction budget with
  | zero =>
    intro pos L before r h
    simp [node_to_field] at h
  | succ budget ih =>
    intro pos L before r h
    unfold node_to_field at h
    split at h
    · cases h
    · rename_i node hn
      split at h
      · rename_i c hc
        exact group_to_field_sound ih hn hc L before r h
      · rename_i hc
        split at h
        · simp only [Except.ok.injEq] at h
          subst h
          simp only [leaves_of_composite_field _ _ _ _ (show TypeDescriptor.ARRAY ≠
            TypeDescriptor.SCALAR by decide), leaves_of_list_singleton, leaves_of_leaf_to_field]
          exact Converted.leaf_step hn hc _ _ _
        · simp only [Except.ok.injEq] at h
          subst h
          simp only [leaves_of_leaf_to_field]
          exact Converted.leaf_step hn hc _ _ _

/-! ### The recursion budget is enough -/

theorem Finishes.mono
    {descend : Nat → LevelInfo → List (Field PT) → Except SchemaError (Parsed PT)} {p q : Nat}
    (h : Finishes descend p) (hpq : p ≤ q) : Finishes descend q :=
  fun pos L before hq => h pos L before (Nat.le_trans hpq hq)

theorem children_to_fields_finishes {t : List (SchemaElement PT)}
    {descend : Nat → LevelInfo → List (Field PT) → Except SchemaError (Parsed PT)}
    (hs : Sound t descend) {p : Nat} (hf : Finishes descend p) (L : LevelInfo) :
    ∀ (k pos : Nat) (before : List (Field PT)), p ≤ pos →
      children_to_fields descend k pos L before ≠ Except.error SchemaError.Unfinished := by
  intro k
  induction k with
  | zero =>
    intro pos before _ h
    simp [children_to_fields] at h
  | succ k ih =>
    intro pos before hp h
    unfold children_to_fields at h
    split at h
    · rename_i e he
      simp only [Except.error.injEq] at h
      subst h
      exact hf pos L before hp he
    · rename_i first hfirst
      have hb := (hs pos L before first hfirst)
      obtain ⟨nodes, hpre, _⟩ := hb
      have hnext := hpre.bounds.1
      split at h
      · rename_i e he
        simp only [Except.error.injEq] at h
        subst h
        exact ih first.next_pos first.physical_fields (by omega) he
      · cases h

theorem group_to_struct_field_finishes {t : List (SchemaElement PT)}
    {descend : Nat → LevelInfo → List (Field PT) → Except SchemaError (Parsed PT)}
    (hs : Sound t descend) {pos : Nat} (hf : Finishes descend (pos + 1))
    (node : SchemaElement PT) (c : Nat) (L : LevelInfo) (before : List (Field PT)) :
    group_to_struct_field descend node c pos L before ≠
      Except.error SchemaError.Unfinished := by
  intro h
  unfold group_to_struct_field at h
  split at h
  · rename_i e he
    simp only [Except.error.injEq] at h
    subst h
    exact children_to_fields_finishes hs hf L c (pos + 1) before (Nat.le_refl _) he
  · cases h

theorem list_to_field_finishes {t : List (SchemaElement PT)}
    {descend : Nat → LevelInfo → List (Field PT) → Except SchemaError (Parsed PT)}
    (hs : Sound t descend) {pos : Nat} (hf : Finishes descend (pos + 1))
    (node : SchemaElement PT) (c : Nat) (L : LevelInfo) (before : List (Field PT)) :
    list_to_field descend t node c pos L before ≠ Except.error SchemaError.Unfinished := by
  intro h
  unfold list_to_field at h
  split at h
  · cases h
  · simp only at h
    split at h
    · cases h
    · split at h
      · cases h
      · split at h
        · cases h
        · split at h
          · cases h
          · split at h
            · split at h
              · rename_i e he
                simp only [Except.error.injEq] at h
                subst h
                exact hf (pos + 2) _ _ (by omega) he
              · cases h
            · split at h
              · rename_i e he
                simp only [Except.error.injEq] at h
                subst h
                exact group_to_struct_field_finishes hs (hf.mono (by omega)) _ _ _ _ he
              · cases h

theorem map_to_field_finishes {t : List (SchemaElement PT)}
    {descend : Nat → LevelInfo → List (Field PT) → Except SchemaError (Parsed PT)}
    (hs : Sound t descend) {pos : Nat} (hf : Finishes descend (pos + 1))
    (node : SchemaElement PT) (c : Nat) (L : LevelInfo) (before : List (Field PT)) :
    map_to_field descend t node c pos L before ≠ Except.error SchemaError.Unfinished := by
  intro h
  unfold map_to_field at h
  split at h
  · cases h
  · simp only at h
    split at h
    · cases h
    · split at h
      · cases h
      · split at h
        · cases h
        · split at h
          · cases h
          · split at h
            · rename_i e he
              simp only [Except.error.injEq] at h
              subst h
              exact children_to_fields_finishes hs hf _ 2 (pos + 2) before (by omega) he
            · cases h

theorem group_to_field_finishes {t : List (SchemaElement PT)}
    {descend : Nat → LevelInfo → List (Field PT) → Except SchemaError (Parsed PT)}
    (hs : Sound t descend) {pos : Nat} (hf : Finishes descend (pos + 1))
    (node : SchemaElement PT) (c : Nat) (L : LevelInfo) (before : List (Field PT)) :
    group_to_field descend t node c pos L before ≠ Except.error SchemaError.Unfinished := by
  intro h
  unfold group_to_field at h
  split at h
  · exact list_to_field_finishes hs hf _ _ _ _ h
  · exact map_to_field_finishes hs hf _ _ _ _ h
  · split at h
    · simp only at h
      split at h
      · rename_i e he
        simp only [Except.error.injEq] at h
        subst h
        exact group_to_struct_field_finishes hs hf _ _ _ _ he
      · cases h
    · exact group_to_struct_field_finishes hs hf _ _ _ _ h

theorem node_to_field_finishes (t : List (SchemaElement PT)) :
    ∀ (budget pos : Nat) (L : LevelInfo) (before : List (Field PT)),
      t.length - pos < budget →
        node_to_field t budget pos L before ≠ Except.error SchemaError.Unfinished := by
  intro budget
  induction budget with
  | zero => intro pos L before hb; omega
  | succ budget ih =>
    intro pos L before hb h
    unfold node_to_field at h
    split at h
    · cases h
    · rename_i node hn
      have hp : pos < t.length := (List.getElem?_eq_some_iff.mp hn).1
      split at h
      · have hf : Finishes (node_to_field t budget) (pos + 1) :=
          fun pos2 L2 before2 h2 => ih pos2 L2 before2 (by omega)
        exact group_to_field_finishes (node_to_field_sound t budget) hf _ _ _ _ h
      · split at h <;> cases h

/-! ### `from_thrift` -/

theorem index_names_finishes (cs : Bool) :
    ∀ (fields : List (Field PT)) (i : Nat) (m : List (String × Int)),
      index_names cs fields i m ≠ Except.error SchemaError.Unfinished := by
  intro fields
  induction fields with
  | nil => intro i m h; simp [index_names] at h
  | cons f fs ih =>
    intro i m h
    unfold index_names at h
    split at h
    · cases h
    · exact ih _ _ h

theorem from_thrift_ok (d : SchemaDescriptor (SchemaElement PT) TypeDescriptor PT)
    (t : List (SchemaElement PT)) (cs : Bool)
    (h : (from_thrift d t cs).1 = Except.ok ()) :
    ∃ root c fields physical_fields field_idx_by_name,
      t[0]? = some root ∧ root.num_children = some c ∧
      children_to_fields (node_to_field t t.length) c 1 {} [] =
        Except.ok (fields, t.length, physical_fields) ∧
      index_names cs fields 0 [] = Except.ok field_idx_by_name ∧
      (from_thrift d t cs).2 =
        { _fields := fields, _physical_fields := physical_fields,
          _field_idx_by_name := field_idx_by_name, _case_sensitive := cs } := by
  unfold from_thrift at h ⊢
  split
  · rename_i h0; simp [h0] at h
  · rename_i root h0
    simp only [h0] at h
    split
    · rename_i hc; simp [hc] at h
    · rename_i c hc
      simp only [hc] at h
      split
      · rename_i e he; simp [he] at h
      · rename_i fields np ph hch
        simp only [hch] at h
        split
        · rename_i hnp; rw [if_pos hnp] at h; cases h
        · rename_i hnp
          rw [if_neg hnp] at h
          have hnp : np = t.length := by simpa using hnp
          subst hnp
          split
          · rename_i e he; simp [he] at h
          · rename_i m hm
            exact ⟨root, c, fields, ph, m, h0, hc, hch, hm, rfl⟩

theorem from_thrift_error (d : SchemaDescriptor (SchemaElement PT) TypeDescriptor PT)
    (t : List (SchemaElement PT)) (cs : Bool) (e : SchemaError)
    (h : (from_thrift d t cs).1 = Except.error e) :
    (from_thrift d t cs).2 = d ∧ e ≠ SchemaError.Unfinished := by
  unfold from_thrift at h ⊢
  split
  · rename_i h0
    simp only [h0, Except.error.injEq] at h
    subst h
    exact ⟨rfl, by decide⟩
  · rename_i root h0
    simp only [h0] at h
    have hlen : 0 < t.length := (List.getElem?_eq_some_iff.mp h0).1
    split
    · rename_i hc
      simp only [hc, Except.error.injEq] at h
      subst h
      exact ⟨rfl, by decide⟩
    · rename_i c hc
      simp only [hc] at h
      split
      · rename_i e2 he
        simp only [he, Except.error.injEq] at h
        subst h
        refine ⟨rfl, ?_⟩
        intro hu
        subst hu
        have hf : Finishes (node_to_field t t.length) 1 :=
          fun pos L before hp => node_to_field_finishes t t.length pos L before (by omega)
        exact children_to_fields_finishes (node_to_field_sound t t.length) hf {} c 1 []
          (Nat.le_refl _) he
      · rename_i fields np ph hch
        simp only [hch] at h
        split
        · rename_i hnp
          rw [if_pos hnp] at h
          simp only [Except.error.injEq] at h
          subst h
          exact ⟨rfl, by decide⟩
        · rename_i hnp
          rw [if_neg hnp] at h
          split
          · rename_i e2 he
            simp only [he, Except.error.injEq] at h
            subst h
            refine ⟨rfl, ?_⟩
            intro hu
            subst hu
            exact index_names_finishes cs fields 0 [] he
          · rename_i m hm
            simp [hm] at h

theorem from_thrift_total (d : SchemaDescriptor (SchemaElement PT) TypeDescriptor PT)
    (t : List (SchemaElement PT)) (cs : Bool) :
    (from_thrift d t cs).1 ≠ Except.error SchemaError.Unfinished :=
  fun h => (from_thrift_error d t cs _ h).2 rfl

/-! ### The name map -/

theorem lookup_singleton_of_ne (key k : String) (v : Int) (h : k ≠ key) :
    List.lookup key [(k, v)] = none := by
  have hb : (key == k) = false := beq_false_of_ne (Ne.symm h)
  simp [List.lookup_cons, hb]

theorem index_names_keeps (cs : Bool) (key : String) (v : Int) :
    ∀ (fields : List (Field PT)) (i : Nat) (m m2 : List (String × Int)),
      index_names cs fields i m = Except.ok m2 → m.lookup key = some v →
        m2.lookup key = some v := by
  intro fields
  induction fields with
  | nil =>
    intro i m m2 h hv
    simp only [index_names, Except.ok.injEq] at h
    subst h
    exact hv
  | cons f fs ih =>
    intro i m m2 h hv
    unfold index_names at h
    split at h
    · cases h
    · refine ih _ _ _ h ?_
      rw [List.lookup_append, hv]
      rfl

theorem index_names_absent (cs : Bool) (key : String) :
    ∀ (fields : List (Field PT)) (i : Nat) (m m2 : List (String × Int)),
      index_names cs fields i m = Except.ok m2 →
        (∀ f ∈ fields, name_key cs f.name ≠ key) → m2.lookup key = m.lookup key := by
  intro fields
  induction fields with
  | nil =>
    intro i m m2 h _
    simp only [index_names, Except.ok.injEq] at h
    subst h
    rfl
  | cons f fs ih =>
    intro i m m2 h hne
    unfold index_names at h
    split at h
    · cases h
    · rw [ih _ _ _ h (fun g hg => hne g (List.mem_cons_of_mem _ hg)), List.lookup_append]
      have hk : name_key cs f.name ≠ key := hne f (List.mem_cons_self _ _)
      rw [lookup_singleton_of_ne key _ _ hk]
      cases List.lookup key m <;> rfl

theorem index_names_present (cs : Bool) (key : String) :
    ∀ (fields : List (Field PT)) (i : Nat) (m m2 : List (String × Int)),
      index_names cs fields i m = Except.ok m2 → m.lookup key = none →
        (∃ f ∈ fields, name_key cs f.name = key) →
          ∃ j f, fields[j]? = some f ∧ name_key cs f.name = key ∧
            m2.lookup key = some ((i + j : Nat) : Int) := by
  intro fields
  induction fields with
  | nil =>
    intro i m m2 _ _ hex
    obtain ⟨f, hf, _⟩ := hex
    cases hf
  | cons f fs ih =>
    intro i m m2 h hnone hex
    unfold index_names at h
    split at h
    · cases h
    · by_cases hk : name_key cs f.name = key
      · refine ⟨0, f, List.getElem?_cons_zero, hk, ?_⟩
        refine index_names_keeps cs key _ fs _ _ _ h ?_
        rw [List.lookup_append, hnone, hk]
        simp
      · have hrest : ∃ g ∈ fs, name_key cs g.name = key := by
          obtain ⟨g, hg, hgk⟩ := hex
          rcases List.mem_cons.mp hg with rfl | hg2
          · exact absurd hgk hk
          · exact ⟨g, hg2, hgk⟩
        have hnone2 : List.lookup key (m ++ [(name_key cs f.name, (i : Int))]) = none := by
          rw [List.lookup_append, hnone, lookup_singleton_of_ne key _ _ hk]
          rfl
        obtain ⟨j, g, hj, hgk, hl⟩ := ih (i + 1) _ m2 h hnone2 hrest
        refine ⟨j + 1, g, by simpa using hj, hgk, ?_⟩
        rw [hl]
        congr 1
        omega

theorem fold_case_eq_of_same_up_to_case (a b : String) (h : same_up_to_case a b) :
    fold_case a = fold_case b := by
  have key : ∀ l1 l2 : List Char,
      List.Forall₂ (fun x y => Char.toLower x = Char.toLower y) l1 l2 →
        l1.map Char.toLower = l2.map Char.toLower := by
    intro l1 l2 hl
    induction hl with
    | nil => rfl
    | cons hxy _ ih => simp [hxy, ih]
  unfold fold_case
  rw [key a.data b.data h]

/-! ### Claims about `from_thrift` and `get_column_index` -/

/-- What an accepted array gives: the whole array is the subtree of the
root, with leaf nodes `leaf_nodes t`, and the descriptor holds the fields and
leaves of a `Converted` run over the children of the root. -/
theorem from_thrift_accepted (d : SchemaDescriptor (SchemaElement PT) TypeDescriptor PT)
    (t : List (SchemaElement PT)) (cs : Bool)
    (h : (from_thrift d t cs).1 = Except.ok ()) :
    Subtrees t 1 0 t.length (leaf_nodes t) ∧
      ∃ fields field_idx_by_name,
        (from_thrift d t cs).2 =
          { _fields := fields, _physical_fields := leaves_of_list fields,
            _field_idx_by_name := field_idx_by_name, _case_sensitive := cs } ∧
        (leaves_of_list fields).map (fun f => f.schema_element) = leaf_nodes t ∧
        (leaves_of_list fields).map (fun f => f.physical_column_index) =
          (List.range' 0 (leaves_of_list fields).length).map Int.ofNat := by
  obtain ⟨root, c, fields, phys, m, h0, hc, hch, _, hd⟩ := from_thrift_ok d t cs h
  obtain ⟨⟨nodes, hpre, hphys, hnodes, hidx⟩, _⟩ :=
    children_to_fields_sound (node_to_field_sound t t.length) {} c 1 [] fields t.length phys hch
  have hroot := Subtrees.group h0 hc hpre (Subtrees.done t.length)
  have hall := hroot.leaves_eq
  simp only [List.append_nil, List.take_length, List.drop_zero] at hall hroot
  simp only [List.nil_append] at hphys
  subst hall
  subst hphys
  exact ⟨hroot, fields, m, hd, hnodes, hidx⟩

/-- C11: for every flat schema array that `from_thrift` accepts, the whole
array is the subtree of the root and its leaf nodes in traversal order are
`leaf_nodes t`; the number of leaves produced is the number of these leaf
nodes; the `j`-th leaf produced is built from the `j`-th leaf node; the
`physical_column_index` values of the leaves are `0, 1, …, leaf_count - 1` in
this order; and the leaf sequence is the pre-order sequence of the scalar
fields of the tree built. -/
theorem from_thrift_leaves (d : SchemaDescriptor (SchemaElement PT) TypeDescriptor PT)
    (t : List (SchemaElement PT)) (cs : Bool)
    (h : (from_thrift d t cs).1 = Except.ok ()) :
    Subtrees t 1 0 t.length (leaf_nodes t) ∧
      leaf_count (from_thrift d t cs).2 = (leaf_nodes t).length ∧
      (from_thrift d t cs).2._physical_fields.map (fun f => f.schema_element) = leaf_nodes t ∧
      (from_thrift d t cs).2._physical_fields.map (fun f => f.physical_column_index) =
        (List.range (leaf_count (from_thrift d t cs).2)).map Int.ofNat ∧
      leaves_of_list (from_thrift d t cs).2._fields =
        (from_thrift d t cs).2._physical_fields := by
  obtain ⟨hroot, fields, m, hd, hnodes, hidx⟩ := from_thrift_accepted d t cs h
  rw [hd]
  unfold leaf_count
  refine ⟨hroot, ?_, hnodes, ?_, rfl⟩
  · rw [← hnodes, List.length_map]
  · rw [hidx, List.range_eq_range']

/-- C13: for every flat schema array in which the group at some position `i`
declares more children than the `t.length - (i + 1)` nodes that remain after
it, `from_thrift` answers a failure status (a failure of the construction,
not an exhausted recursion budget) and the descriptor after the call is the
descriptor before the call. -/
theorem from_thrift_child_count_overrun
    (d : SchemaDescriptor (SchemaElement PT) TypeDescriptor PT)
    (t : List (SchemaElement PT)) (cs : Bool) (i : Nat) (node : SchemaElement PT) (c : Nat)
    (hi : t[i]? = some node) (hc : node.num_children = some c)
    (hover : t.length - (i + 1) < c) :
    ∃ e, e ≠ SchemaError.Unfinished ∧ from_thrift d t cs = (Except.error e, d) := by
  cases hst : (from_thrift d t cs).1 with
  | error e =>
    have := from_thrift_error d t cs e hst
    exact ⟨e, this.2, Prod.ext hst this.1⟩
  | ok u =>
    exfalso
    have hroot := (from_thrift_accepted d t cs hst).1
    have hlt : i < t.length := (List.getElem?_eq_some_iff.mp hi).1
    have := hroot.child_count i node c (Nat.zero_le _) hlt hi hc
    omega

/-- The C11 theorem on `nested_schema`, which the conversion accepts. -/
theorem from_thrift_leaves_witness :
    (from_thrift {} nested_schema false).1 = Except.ok () ∧
      (Subtrees nested_schema 1 0 nested_schema.length (leaf_nodes nested_schema) ∧
        leaf_count (from_thrift {} nested_schema false).2 = (leaf_nodes nested_schema).length ∧
        (from_thrift {} nested_schema false).2._physical_fields.map
            (fun f => f.schema_element) = leaf_nodes nested_schema ∧
        (from_thrift {} nested_schema false).2._physical_fields.map
            (fun f => f.physical_column_index) =
          (List.range (leaf_count (from_thrift {} nested_schema false).2)).map Int.ofNat ∧
        leaves_of_list (from_thrift {} nested_schema false).2._fields =
          (from_thrift {} nested_schema false).2._physical_fields) :=
  ⟨rfl, from_thrift_leaves {} nested_schema false rfl⟩

/-- On `nested_schema` the four leaves are `a`, `b`, `element`, `c`, numbered
0 to 3. -/
theorem from_thrift_nested_schema_leaves :
    (from_thrift {} nested_schema false).2._physical_fields.map
        (fun f => (f.name, f.physical_column_index)) =
      [("a", 0), ("b", 1), ("element", 2), ("c", 3)] := by
  decide

/-- C12, as stated, fails on `root { required id, required ID }` under the
case-sensitive policy: the array is accepted, it has a top-level field named
`id`, and both `get_column_index("id")` and `get_column_index("ID")` are
found (0 and 1). -/
theorem get_column_index_case_sensitive_both_found :
    (from_thrift {} id_ID_schema true).1 = Except.ok () ∧
      (from_thrift {} id_ID_schema true).2._fields.map (fun f => f.name) = ["id", "ID"] ∧
      get_column_index (from_thrift {} id_ID_schema true).2 "id" = some 0 ∧
      get_column_index (from_thrift {} id_ID_schema true).2 "ID" = some 1 :=
  ⟨rfl, by decide, by decide, by decide⟩

/-- C12 (amended): for a descriptor built by `from_thrift` with the
case-insensitive policy, `get_column_index` gives the same answer for any two
names that differ only by letter case; for a descriptor built with the
case-sensitive policy that has a top-level field named `id` and no top-level
field named `ID`, `get_column_index("id")` is found (at a top-level field
named `id`) while `get_column_index("ID")` is not-found. -/
theorem get_column_index_case_policy
    (d : SchemaDescriptor (SchemaElement PT) TypeDescriptor PT) (t : List (SchemaElement PT)) :
    (∀ a b : String, (from_thrift d t false).1 = Except.ok () → same_up_to_case a b →
        get_column_index (from_thrift d t false).2 a =
          get_column_index (from_thrift d t false).2 b) ∧
      ((from_thrift d t true).1 = Except.ok () →
        "id" ∈ (from_thrift d t true).2._fields.map (fun f => f.name) →
        "ID" ∉ (from_thrift d t true).2._fields.map (fun f => f.name) →
          (∃ j : Nat, get_column_index (from_thrift d t true).2 "id" = some (j : Int) ∧
            ((from_thrift d t true).2._fields.map (fun f => f.name))[j]? = some "id") ∧
          get_column_index (from_thrift d t true).2 "ID" = none) := by
  constructor
  · intro a b h hab
    obtain ⟨_, _, _, _, _, _, _, _, _, hd⟩ := from_thrift_ok d t false h
    rw [hd]
    simp only [get_column_index, name_key, Bool.false_eq_true, ↓reduceIte]
    rw [fold_case_eq_of_same_up_to_case a b hab]
  · intro h hid hID
    obtain ⟨_, _, fields, _, m, _, _, _, hm, hd⟩ := from_thrift_ok d t true h
    rw [hd] at hid hID ⊢
    simp only [get_column_index, name_key, ↓reduceIte] at hid hID ⊢
    constructor
    · have hex : ∃ f ∈ fields, name_key true f.name = "id" := by
        obtain ⟨f, hf, hn⟩ := List.mem_map.mp hid
        exact ⟨f, hf, by simpa [name_key] using hn⟩
      obtain ⟨j, f, hj, hn, hl⟩ := index_names_present true "id" fields 0 [] m hm rfl hex
      refine ⟨j, ?_, ?_⟩
      · rw [hl]; simp
      · rw [List.getElem?_map, hj]
        simpa [name_key] using hn
    · rw [index_names_absent true "ID" fields 0 [] m hm]
      · rfl
      · intro f hf hn
        exact hID (List.mem_map.mpr ⟨f, hf, by simpa [name_key] using hn⟩)

/-- The amended C12 on `root { required id, optional name }`, with the names
`ID` and `id`. -/
theorem get_column_index_case_policy_witness :
    (from_thrift {} id_name_schema false).1 = Except.ok () ∧ same_up_to_case "ID" "id" ∧
      get_column_index (from_thrift {} id_name_schema false).2 "ID" =
        get_column_index (from_thrift {} id_name_schema false).2 "id" ∧
      (from_thrift {} id_name_schema true).1 = Except.ok () ∧
      "id" ∈ (from_thrift {} id_name_schema true).2._fields.map (fun f => f.name) ∧
      "ID" ∉ (from_thrift {} id_name_schema true).2._fields.map (fun f => f.name) ∧
      ((∃ j : Nat, get_column_index (from_thrift {} id_name_schema true).2 "id" = some (j : Int) ∧
          ((from_thrift {} id_name_schema true).2._fields.map (fun f => f.name))[j]? =
            some "id") ∧
        get_column_index (from_thrift {} id_name_schema true).2 "ID" = none) :=
  have hcase : same_up_to_case "ID" "id" :=
    List.Forall₂.cons (by decide) (List.Forall₂.cons (by decide) List.Forall₂.nil)
  ⟨rfl, hcase,
    (get_column_index_case_policy {} id_name_schema).1 "ID" "id" rfl hcase,
    rfl, by decide, by decide,
    (get_column_index_case_policy {} id_name_schema).2 rfl (by decide) (by decide)⟩

/-- The C13 theorem on `overrun_schema`: the root at position 0 declares 3
children and 2 nodes follow. -/
theorem from_thrift_child_count_overrun_witness :
    overrun_schema[0]? = some (group_node "root" none 3 none) ∧
      (group_node "root" none 3 none).num_children = some 3 ∧
      overrun_schema.length - (0 + 1) < 3 ∧
      ∃ e, e ≠ SchemaError.Unfinished ∧
        from_thrift sample_converted overrun_schema true = (Except.error e, sample_converted) :=
  ⟨rfl, rfl, by decide,
    from_thrift_child_count_overrun sample_converted overrun_schema true 0
      (group_node "root" none 3 none) 3 rfl rfl (by decide)⟩

end SchemaDescriptor

end Parquet
